import Mathlib

/-!
Shallow embedding of the inference black-box service
(src/services/inferenceBlackBox.py): the data model, path handling, the
pixel-blend operator and the dataset orchestration pipeline, with theorems
checking the specification's claims against them.

Modelling conventions: filesystem reads (cv2.imread) are an environment
mapping absolute path strings to decoded rasters; float32 arithmetic is
modelled by exact rational arithmetic; fresh uuid4 strings are a supply
indexed by a counter threaded through the computation; writes always
succeed and a scratch frame written then read back is the same raster
(PNG round-trip is lossless).
-/

deriving instance DecidableEq for Except

namespace BlackBox

/-- One BGR pixel as stored by cv2: three 8-bit channels. -/
structure Pix where
  b : Nat
  g : Nat
  r : Nat
deriving DecidableEq

/-- A decoded raster: rows of pixels, row-major, as a numpy array. -/
structure Raster where
  rows : List (List Pix)
deriving DecidableEq

/-- numpy shape of a raster restricted to the first two axes:
(height, width), the width read off the first row. -/
def rasterShape (m : Raster) : Nat × Nat :=
  (m.rows.length, (m.rows.headD []).length)

/-- The POSIX path separator character. -/
def sepChar : Char := '/'

/-- The POSIX path separator as a string. -/
def sepStr : String := "/"

/-- The dot character. -/
def dotChar : Char := '.'

/-- Model of POSIX os.path.join on two arguments: an absolute second
argument replaces the first; otherwise the two are concatenated with one
separator unless the first is empty or already ends in a separator. -/
def osPathJoin (a b : String) : String :=
  if b.data.head? = some sepChar then b
  else if a.data = [] then b
  else if a.data.getLast? = some sepChar then String.mk (a.data ++ b.data)
  else String.mk (a.data ++ sepChar :: b.data)

/-- Split a character list at every separator, keeping empty chunks. -/
def splitChunks : List Char → List (List Char)
  | [] => [[]]
  | c :: cs =>
    let rest := splitChunks cs
    if c = sepChar then [] :: rest
    else
      match rest with
      | [] => [[c]]
      | h :: t => (c :: h) :: t

/-- The non-empty, non-dot components of a path, the way os.path
normalization sees them. -/
def pathComponents (p : String) : List String :=
  ((splitChunks p.data).filter (fun c => decide (c ≠ [] ∧ c ≠ [dotChar]))).map String.mk

/-- Resolve dot-dot components left to right the way POSIX normalization
of an absolute path does: a dot-dot removes the preceding component and is
dropped at the root. -/
def normComps (cs : List String) : List String :=
  cs.foldl (fun acc c => if c = ".." then acc.dropLast else acc ++ [c]) []

/-- Length of the common leading run of two component lists. -/
def commonLen : List String → List String → Nat
  | a :: as, b :: bs => if a = b then commonLen as bs + 1 else 0
  | _, _ => 0

/-- Join path components with the separator, the way the separator join
inside os.path assembles a path from its parts. -/
def joinComps : List String → String
  | [] => ""
  | [c] => c
  | c :: rest => c ++ sepStr ++ joinComps rest

/-- Model of os.path.relpath for absolute inputs: os.path.abspath first
normalizes both arguments (resolving dot and dot-dot components the way
normpath does), then the element-wise common leading components are
dropped and one dot-dot entry is emitted per remaining component of the
start directory. -/
def osPathRelpath (path start : String) : String :=
  let pc := normComps (pathComponents path)
  let sc := normComps (pathComponents start)
  let n := commonLen pc sc
  let parts := List.replicate (sc.length - n) (".." : String) ++ pc.drop n
  if parts = [] then "." else joinComps parts

/-- cv2.cvtColor BGR2GRAY on 8-bit input: fixed-point luminance with
coefficients 4899 for red, 9617 for green, 1868 for blue at shift 14,
rounded to nearest by the added half. -/
def bgr2grayPixel (p : Pix) : Nat :=
  (4899 * p.r + 9617 * p.g + 1868 * p.b + 8192) / 16384

/-- One channel of the blend at lines 75 to 79 of the source, with g the
mask luminance: the float32 expression ic * (1 - (g/255) * 0.5) +
mc * ((g/255) * 0.5) evaluated exactly over the common denominator 510,
so the value is n / 510 with n = ic * (510 - g) + mc * g; np.clip bounds
it to the 0..255 range and astype to np.uint8 truncates the fraction.
All quantities involved are exactly representable, so exact arithmetic
coincides with the float32 computation. -/
def blendChan (ic mc g : Nat) : Nat :=
  let n : Int := (ic : Int) * (510 - (g : Int)) + (mc : Int) * (g : Int)
  if n < 0 then 0
  else if 255 * 510 < n then 255
  else n.toNat / 510

/-- Per-pixel blend: grayscale the mask pixel, then blend every BGR
channel of the image against the mask with the same normalized weight. -/
def blendPixel (ip mp : Pix) : Pix :=
  let g := bgr2grayPixel mp
  ⟨blendChan ip.b mp.b g, blendChan ip.g mp.g g, blendChan ip.r mp.r g⟩

/-- Elementwise blend of two equal-shape rasters, numpy broadcasting over
rows and columns. -/
def blendRasters (image mask : Raster) : Raster :=
  ⟨(image.rows.zip mask.rows).map fun rw =>
    (rw.1.zip rw.2).map fun pq => blendPixel pq.1 pq.2⟩

/-- cv2.resize of the mask to the image dimensions. The exact resampling
kernel is not load-bearing (spec section 4.1 allows nearest or linear);
modelled as nearest-neighbour sampling. -/
def cvResize (m : Raster) (h w : Nat) : Raster :=
  let sh := m.rows.length
  let sw := (m.rows.headD []).length
  ⟨(List.range h).map fun i =>
    (List.range w).map fun j =>
      (m.rows.getD (i * sh / h) []).getD (j * sw / w) ⟨0, 0, 0⟩⟩

/-- Lines 42 to 85 of the source: load the image and the mask relative to
the upload directory, resize the mask when the spatial shapes differ, and
blend. A failed load raises ValueError, modelled as an error value
carrying the message text. -/
def process_image_pair (env : String → Option Raster)
    (uploadDir imagePath maskPath : String) : Except String Raster :=
  match env (osPathJoin uploadDir imagePath) with
  | none => Except.error ("Could not load image: " ++ imagePath)
  | some image =>
    match env (osPathJoin uploadDir maskPath) with
    | none => Except.error ("Could not load mask: " ++ maskPath)
    | some mask =>
      let mask2 :=
        if rasterShape image ≠ rasterShape mask then
          cvResize mask (rasterShape image).1 (rasterShape image).2
        else mask
      Except.ok (blendRasters image mask2)

/-- One entry of the dataset pairs list. uploadIndex and frameIndex are
read with dict.get and may be absent. -/
structure PairRecord where
  imagePath : String
  maskPath : String
  uploadIndex : Option Nat
  frameIndex : Option Int
deriving DecidableEq

/-- Lines 87 to 102 of the source: build the output path of a processed
image under inferences/userId with a fresh-uuid name and return it
relative to the upload directory. The raster content does not influence
the path; the uuid string is supplied by the caller. -/
def save_processed_image (uploadDir userId filename uuidStr : String) : String :=
  let outputDir := osPathJoin uploadDir ("inferences")
  let userOutputDir := osPathJoin outputDir userId
  let outputFilename := uuidStr ++ "_" ++ filename
  let outputPath := osPathJoin userOutputDir outputFilename
  osPathRelpath outputPath uploadDir

/-- os.makedirs with exist_ok set, over the set of existing directories
modelled as a list: create the directory only when absent. -/
def makedirs (d : String) (dirs : List String) : List String :=
  if d ∈ dirs then dirs else d :: dirs

/-- os.path.basename: everything after the last separator. -/
def osPathBasename (p : String) : String :=
  String.mk ((p.data.reverse.takeWhile (fun c => c ≠ sepChar)).reverse)

/-- Drop the chunk after the last dot of a character list; a dotless list
is returned whole. -/
def lastDotSplit (cs : List Char) : List Char :=
  match cs.reverse.dropWhile (fun c => c ≠ dotChar) with
  | [] => cs
  | _ :: t => t.reverse

/-- The stem of os.path.splitext: the filename without its final
extension; leading dots do not start an extension. -/
def splitextStem (f : String) : String :=
  let lead := f.data.takeWhile (fun c => c = dotChar)
  let rest := f.data.drop lead.length
  String.mk (lead ++ lastDotSplit rest)

/-- The video artifact written by cv2.VideoWriter: its path relative to
the upload directory, the frame rate handed to the writer, and the frames
written in order. -/
structure VideoArtifact where
  path : String
  fps : ℚ
  frames : List Raster
deriving DecidableEq

/-- pair.get of the frame index with default 0, the sort key of line 110. -/
def frameKey (p : PairRecord) : Int := p.frameIndex.getD 0

/-- The comparison the sort at line 110 orders by. -/
def frameLE (a b : PairRecord) : Prop := frameKey a ≤ frameKey b

instance : DecidableRel frameLE := fun a b => Int.decLe (frameKey a) (frameKey b)

instance : IsTotal PairRecord frameLE := ⟨fun a b => Int.le_total (frameKey a) (frameKey b)⟩

instance : IsTrans PairRecord frameLE := ⟨fun _ _ _ h1 h2 => le_trans h1 h2⟩

/-- The in-place sort at line 110: Python list.sort is stable and orders
by the frame-index key; modelled by the stable insertion sort. -/
def sortFrames (l : List PairRecord) : List PairRecord :=
  List.insertionSort frameLE l

/-- Lines 117 to 126 of the source: blend every frame pair in order,
writing each blended frame to a scratch file; any failure propagates out
of the loop. The scratch files read back as the written rasters. -/
def processFramesLoop (env : String → Option Raster) (uploadDir : String) :
    List PairRecord → Except String (List Raster)
  | [] => Except.ok []
  | p :: rest =>
    match process_image_pair env uploadDir p.imagePath p.maskPath with
    | Except.error e => Except.error e
    | Except.ok img =>
      match processFramesLoop env uploadDir rest with
      | Except.error e => Except.error e
      | Except.ok restFrames => Except.ok (img :: restFrames)

/-- Lines 104 to 164 of the source: sort the group by frame index, blend
every frame, fail when no frame was produced, and emit a video artifact
with a fixed rate of 1 frames per second under a fresh-uuid name, its path
relative to the upload directory. The uuid counter advances only when a
video is written. -/
def process_video_frames (env : String → Option Raster) (uploadDir : String)
    (uuids : Nat → String) (ctr : Nat) (frame_pairs : List PairRecord)
    (userId videoId : String) : Except String (VideoArtifact × Nat) :=
  match processFramesLoop env uploadDir (sortFrames frame_pairs) with
  | Except.error e => Except.error e
  | Except.ok frames =>
    if frames = [] then Except.error ("No frames to process")
    else
      let outputDir := osPathJoin uploadDir ("inferences")
      let userOutputDir := osPathJoin outputDir userId
      let outputFilename := uuids ctr ++ "_video_" ++ videoId ++ ".mp4"
      let outputPath := osPathJoin userOutputDir outputFilename
      Except.ok (⟨osPathRelpath outputPath uploadDir, 1, frames⟩, ctr + 1)

/-- The test at line 188 of the source: a record is a video frame exactly
when its frameIndex is present (is not None), whatever its value. -/
def isFrameRecord (p : PairRecord) : Bool := p.frameIndex.isSome

/-- Append a frame record to its uploadIndex group, creating the group at
the end on first sight, the way a Python dict keeps insertion order. -/
def addToGroup : List (Option Nat × List PairRecord) → Option Nat → PairRecord →
    List (Option Nat × List PairRecord)
  | [], k, p => [(k, [p])]
  | (k2, ps) :: rest, k, p =>
    if k2 = k then (k2, ps ++ [p]) :: rest
    else (k2, ps) :: addToGroup rest k p

/-- One partition step of lines 183 to 193. -/
def partitionStep (acc : List (Option Nat × List PairRecord) × List PairRecord)
    (p : PairRecord) : List (Option Nat × List PairRecord) × List PairRecord :=
  if isFrameRecord p then (addToGroup acc.1 p.uploadIndex p, acc.2)
  else (acc.1, acc.2 ++ [p])

/-- Lines 179 to 193 of the source: split the pairs into video groups
(a dict keyed by uploadIndex, insertion-ordered) and the single images. -/
def partitionPairs (pairs : List PairRecord) :
    List (Option Nat × List PairRecord) × List PairRecord :=
  pairs.foldl partitionStep ([], [])

/-- Python str of the group key used at lines 235 and 240: None prints as
the word None. -/
def showKey : Option Nat → String
  | none => "None"
  | some n => toString n

/-- One entry of the images list of the report. -/
structure ImgResult where
  originalPath : String
  outputPath : String
deriving DecidableEq

/-- One entry of the videos list of the report. -/
structure VidResult where
  originalVideoId : String
  outputPath : String
deriving DecidableEq

/-- The JSON report of process_dataset. -/
inductive BatchReport where
  | failure (error : String)
  | success (images : List ImgResult) (videos : List VidResult)
deriving DecidableEq

/-- Lines 199 to 228 of the source: process every single image in order,
skipping a failed item and continuing; one uuid is consumed per saved
image. Returns the advanced uuid counter and the images list. -/
def processSingles (env : String → Option Raster) (uploadDir : String)
    (uuids : Nat → String) (userId : String) :
    Nat → List PairRecord → Nat × List ImgResult
  | ctr, [] => (ctr, [])
  | ctr, p :: rest =>
    match process_image_pair env uploadDir p.imagePath p.maskPath with
    | Except.error _ => processSingles env uploadDir uuids userId ctr rest
    | Except.ok _ =>
      let name := "processed_" ++ splitextStem (osPathBasename p.imagePath) ++ ".png"
      let outPath := save_processed_image uploadDir userId name (uuids ctr)
      let next := processSingles env uploadDir uuids userId (ctr + 1) rest
      (next.1, ⟨p.imagePath, outPath⟩ :: next.2)

/-- Lines 230 to 248 of the source: reconstruct every video group in
insertion order, skipping a failed group and continuing. -/
def processVideos (env : String → Option Raster) (uploadDir : String)
    (uuids : Nat → String) (userId : String) :
    Nat → List (Option Nat × List PairRecord) → Nat × List VidResult
  | ctr, [] => (ctr, [])
  | ctr, (k, ps) :: rest =>
    match process_video_frames env uploadDir uuids ctr ps userId (showKey k) with
    | Except.error _ => processVideos env uploadDir uuids userId ctr rest
    | Except.ok (art, ctr2) =>
      let next := processVideos env uploadDir uuids userId ctr2 rest
      (next.1, ⟨showKey k, art.path⟩ :: next.2)

/-- Lines 166 to 264 of the source: validate, partition, process single
images then video groups, and aggregate. Per-item failures are skipped;
only an empty pairs list yields a failure report. -/
def process_dataset (env : String → Option Raster) (uploadDir : String)
    (uuids : Nat → String) (userId : String) (pairs : List PairRecord) :
    BatchReport :=
  if pairs = [] then BatchReport.failure ("No data pairs found in dataset")
  else
    let parts := partitionPairs pairs
    let imgs := processSingles env uploadDir uuids userId 0 parts.2
    let vids := processVideos env uploadDir uuids userId imgs.1 parts.1
    BatchReport.success imgs.2 vids.2

/-- Whether one standalone record decodes and blends. -/
def itemOk (env : String → Option Raster) (uploadDir : String)
    (p : PairRecord) : Bool :=
  (process_image_pair env uploadDir p.imagePath p.maskPath).isOk

/-- Whether a frame group yields a video: non-empty and every member
blends. -/
def groupOk (env : String → Option Raster) (uploadDir : String)
    (ps : List PairRecord) : Bool :=
  !ps.isEmpty && ps.all (itemOk env uploadDir)

/-- The accumulated frame list of a group key: the dict lookup, empty when
the key is absent. -/
def groupOf (gs : List (Option Nat × List PairRecord)) (k : Option Nat) :
    List PairRecord :=
  match gs.find? (fun e => decide (e.1 = k)) with
  | none => []
  | some e => e.2

/-- Seconds of playback of a video artifact: frame count over rate. -/
def durationSeconds (art : VideoArtifact) : ℚ :=
  (art.frames.length : ℚ) / art.fps

/-- The blend formula exactly as the spec words it, over exact rationals:
the weight w is the single-channel mask luminance normalized to the unit
interval times one half; the output is image * (1 - w) + mask * w,
clipped to the 0..255 integer range, the rounding convention being
truncation of the fractional part. -/
def specBlendChan (ic mc lum : Nat) : Nat :=
  (⌊max 0 (min 255 ((ic : ℚ) * (1 - (lum : ℚ) / 255 * (1 / 2)) +
    (mc : ℚ) * ((lum : ℚ) / 255 * (1 / 2))))⌋).toNat

/-! ### Sample inputs used by the concrete witnesses -/

/-- Sample raster: one flat gray pixel. -/
def sampleGray : Raster := ⟨[[⟨128, 128, 128⟩]]⟩

/-- Sample raster: one flat white pixel. -/
def sampleWhite : Raster := ⟨[[⟨255, 255, 255⟩]]⟩

/-- The blend of the gray sample against the white sample. -/
def sampleBlended : Raster := ⟨[[⟨191, 191, 191⟩]]⟩

/-- Sample environment: a handful of decodable files under /up, nothing
else. -/
def sampleEnv : String → Option Raster := fun s =>
  if s = "/up/img.png" ∨ s = "/up/f0.png" ∨ s = "/up/f1.png" ∨ s = "/up/f2.png"
  then some sampleGray
  else if s = "/up/msk.png" ∨ s = "/up/m0.png" ∨ s = "/up/m1.png" ∨ s = "/up/m2.png"
  then some sampleWhite
  else none

/-- Sample uuid supply. -/
def sampleUuids : Nat → String := fun n => "uuid" ++ toString n

/-- A decodable standalone record. -/
def sampleSingle : PairRecord := ⟨"img.png", "msk.png", none, none⟩

/-- A standalone record whose files are missing. -/
def sampleBad : PairRecord := ⟨"missing.png", "missing2.png", none, none⟩

/-- Frames of a decodable group with key 4, frame indices 0, 1 and 2. -/
def sampleF0 : PairRecord := ⟨"f0.png", "m0.png", some 4, some 0⟩

/-- Second frame of the sample group. -/
def sampleF1 : PairRecord := ⟨"f1.png", "m1.png", some 4, some 1⟩

/-- Third frame of the sample group. -/
def sampleF2 : PairRecord := ⟨"f2.png", "m2.png", some 4, some 2⟩

/-- A frame record whose files are missing, in its own group 7. -/
def sampleBadFrame : PairRecord := ⟨"missing.png", "missing2.png", some 7, some 1⟩

/-- A batch mixing one good single, one bad single and the group 4 with
frames arriving out of order. -/
def samplePairs : List PairRecord :=
  [sampleSingle, sampleF2, sampleF0, sampleF1, sampleBad]

/-- The images list the sample batch produces. -/
def sampleImgs : List ImgResult :=
  [⟨"img.png", "inferences/u1/uuid0_processed_img.png"⟩]

/-- The videos list the sample batch produces. -/
def sampleVids : List VidResult :=
  [⟨"4", "inferences/u1/uuid1_video_4.mp4"⟩]

/-- A group with key 9 whose frame indices arrive in the order 3, 1, 2. -/
def sampleK3 : PairRecord := ⟨"f0.png", "m0.png", some 9, some 3⟩

/-- The key-1 member of the out-of-order group. -/
def sampleK1 : PairRecord := ⟨"f1.png", "m1.png", some 9, some 1⟩

/-- The key-2 member of the out-of-order group. -/
def sampleK2 : PairRecord := ⟨"f2.png", "m2.png", some 9, some 2⟩

/-- The out-of-order group, arrival order 3, 1, 2. -/
def sampleGroup312 : List PairRecord := [sampleK3, sampleK1, sampleK2]

/-- The artifact reconstructed from the out-of-order group. -/
def sampleArt312 : VideoArtifact :=
  ⟨"inferences/u1/uuid0_video_9.mp4", 1,
   [sampleBlended, sampleBlended, sampleBlended]⟩

/-- A batch holding the good group 4 frame and the bad group 7 frame. -/
def samplePairs9 : List PairRecord := [sampleF0, sampleBadFrame]

/-- The videos list of that batch: group 7 is dropped whole. -/
def sampleVids9 : List VidResult :=
  [⟨"4", "inferences/u1/uuid0_video_4.mp4"⟩]

/-! ### Sorting lemmas: order and stability of the frame sort -/

theorem sortFrames_sorted (l : List PairRecord) :
    List.Sorted frameLE (sortFrames l) :=
  List.sorted_insertionSort frameLE l

theorem sortFrames_perm (l : List PairRecord) : List.Perm (sortFrames l) l :=
  List.perm_insertionSort frameLE l

theorem orderedInsert_filter_of_key (a : PairRecord) (k : Int)
    (h : frameKey a = k) :
    ∀ l : List PairRecord,
      (List.orderedInsert frameLE a l).filter (fun p => decide (frameKey p = k)) =
        a :: l.filter (fun p => decide (frameKey p = k))
  | [] => by simp [List.orderedInsert, h]
  | b :: l => by
    by_cases hab : frameLE a b
    · simp [List.orderedInsert, hab, h]
    · have hbk : frameKey b ≠ k := by
        have hlt : frameKey b < frameKey a := lt_of_not_le hab
        omega
      simp [List.orderedInsert, hab, List.filter, hbk,
        orderedInsert_filter_of_key a k h l]

theorem orderedInsert_filter_of_ne (a : PairRecord) (k : Int)
    (h : frameKey a ≠ k) :
    ∀ l : List PairRecord,
      (List.orderedInsert frameLE a l).filter (fun p => decide (frameKey p = k)) =
        l.filter (fun p => decide (frameKey p = k))
  | [] => by simp [List.orderedInsert, h]
  | b :: l => by
    by_cases hab : frameLE a b
    · simp [List.orderedInsert, hab, h]
    · simp [List.orderedInsert, hab, List.filter,
        orderedInsert_filter_of_ne a k h l]

/-- Stability of the frame sort, phrased the classical way: for every key,
the records carrying that key come out in exactly their input order. -/
theorem sortFrames_filter_key (l : List PairRecord) (k : Int) :
    (sortFrames l).filter (fun p => decide (frameKey p = k)) =
      l.filter (fun p => decide (frameKey p = k)) := by
  induction l with
  | nil => rfl
  | cons a l ih =>
    by_cases hk : frameKey a = k
    · simp only [sortFrames, List.insertionSort] at ih ⊢
      rw [orderedInsert_filter_of_key a k hk, ih]
      simp [List.filter_cons, hk]
    · simp only [sortFrames, List.insertionSort] at ih ⊢
      rw [orderedInsert_filter_of_ne a k hk, ih]
      simp [List.filter_cons, hk]

/-! ### Success predicates and processing lemmas -/

theorem processFramesLoop_forall2 (env : String → Option Raster) (d : String) :
    ∀ (l : List PairRecord) (fs : List Raster),
      processFramesLoop env d l = Except.ok fs →
      List.Forall₂ (fun p r =>
        process_image_pair env d p.imagePath p.maskPath = Except.ok r) l fs
  | [], fs, h => by
    simp only [processFramesLoop, Except.ok.injEq] at h
    rw [← h]
    exact List.Forall₂.nil
  | p :: rest, fs, h => by
    cases hp : process_image_pair env d p.imagePath p.maskPath with
    | error e => simp only [processFramesLoop, hp] at h; cases h
    | ok img =>
      cases hr : processFramesLoop env d rest with
      | error e => simp only [processFramesLoop, hp, hr] at h; cases h
      | ok rf =>
        simp only [processFramesLoop, hp, hr, Except.ok.injEq] at h
        rw [← h]
        exact List.Forall₂.cons hp (processFramesLoop_forall2 env d rest rf hr)

theorem processFramesLoop_isOk (env : String → Option Raster) (d : String) :
    ∀ l : List PairRecord,
      (processFramesLoop env d l).isOk = l.all (itemOk env d)
  | [] => rfl
  | p :: rest => by
    cases hp : process_image_pair env d p.imagePath p.maskPath with
    | error e =>
      have hi : itemOk env d p = false := by
        simp [itemOk, hp, Except.isOk, Except.toBool]
      simp [processFramesLoop, hp, Except.isOk, Except.toBool, hi]
    | ok img =>
      have hi : itemOk env d p = true := by
        simp [itemOk, hp, Except.isOk, Except.toBool]
      cases hr : processFramesLoop env d rest with
      | error e =>
        have h2 := processFramesLoop_isOk env d rest
        rw [hr] at h2
        simp only [Except.isOk, Except.toBool] at h2
        simp [processFramesLoop, hp, hr, Except.isOk, Except.toBool, hi, ← h2]
      | ok rf =>
        have h2 := processFramesLoop_isOk env d rest
        rw [hr] at h2
        simp only [Except.isOk, Except.toBool] at h2
        simp [processFramesLoop, hp, hr, Except.isOk, Except.toBool, hi, ← h2]

theorem sortFrames_all (f : PairRecord → Bool) (l : List PairRecord) :
    (sortFrames l).all f = l.all f := by
  apply Bool.eq_iff_iff.mpr
  simp only [List.all_eq_true]
  exact ⟨fun h x hx => h x ((sortFrames_perm l).mem_iff.mpr hx),
    fun h x hx => h x ((sortFrames_perm l).mem_iff.mp hx)⟩

theorem sortFrames_eq_nil_iff (l : List PairRecord) :
    sortFrames l = [] ↔ l = [] := by
  constructor
  · intro h
    have := (sortFrames_perm l).length_eq
    rw [h] at this
    exact List.length_eq_zero.mp this.symm
  · intro h
    rw [h]
    rfl

theorem process_video_frames_isOk (env : String → Option Raster) (d : String)
    (u : Nat → String) (ctr : Nat) (ps : List PairRecord) (uid vid : String) :
    (process_video_frames env d u ctr ps uid vid).isOk = groupOk env d ps := by
  have hall := processFramesLoop_isOk env d (sortFrames ps)
  rw [sortFrames_all (itemOk env d) ps] at hall
  unfold process_video_frames
  split
  · rename_i e hl
    rw [hl] at hall
    simp only [Except.isOk, Except.toBool] at hall ⊢
    rw [groupOk, ← hall, Bool.and_false]
  · rename_i frames hl
    rw [hl] at hall
    simp only [Except.isOk, Except.toBool] at hall
    have hlen := (processFramesLoop_forall2 env d (sortFrames ps) frames hl).length_eq
    by_cases hf : frames = []
    · rw [if_pos hf]
      have hnil : ps = [] := by
        rw [hf] at hlen
        exact (sortFrames_eq_nil_iff ps).mp (List.length_eq_zero.mp hlen)
      simp [Except.isOk, Except.toBool, groupOk, hnil]
    · rw [if_neg hf]
      have hne : ps.isEmpty = false := by
        cases hps : ps with
        | nil =>
          exfalso
          apply hf
          rw [hps] at hlen
          have hs : sortFrames ([] : List PairRecord) = [] := rfl
          rw [hs] at hlen
          exact List.length_eq_zero.mp hlen.symm
        | cons a l => rfl
      simp only [Except.isOk, Except.toBool, groupOk, hne, ← hall,
        Bool.not_false, Bool.true_and]

theorem process_video_frames_ok_elim (env : String → Option Raster) (d : String)
    (u : Nat → String) (ctr : Nat) (ps : List PairRecord) (uid vid : String)
    (art : VideoArtifact) (ctr2 : Nat)
    (h : process_video_frames env d u ctr ps uid vid = Except.ok (art, ctr2)) :
    art.fps = 1 ∧ ctr2 = ctr + 1 ∧
    art.path = osPathRelpath (osPathJoin (osPathJoin (osPathJoin d ("inferences")) uid)
      (u ctr ++ "_video_" ++ vid ++ ".mp4")) d ∧
    List.Forall₂ (fun p r =>
      process_image_pair env d p.imagePath p.maskPath = Except.ok r)
      (sortFrames ps) art.frames ∧
    art.frames ≠ [] := by
  unfold process_video_frames at h
  split at h
  · cases h
  · rename_i frames hl
    split at h
    · cases h
    · rename_i hf
      simp only [Except.ok.injEq, Prod.mk.injEq] at h
      obtain ⟨hart, hctr⟩ := h
      rw [← hart]
      exact ⟨rfl, hctr.symm, rfl,
        processFramesLoop_forall2 env d (sortFrames ps) frames hl, hf⟩

/-! ### Partition lemmas -/

theorem partition_foldl_snd :
    ∀ (pairs : List PairRecord) (gs : List (Option Nat × List PairRecord))
      (si : List PairRecord),
      (pairs.foldl partitionStep (gs, si)).2 =
        si ++ pairs.filter (fun p => !(isFrameRecord p))
  | [], gs, si => by simp
  | p :: pairs, gs, si => by
    by_cases hp : isFrameRecord p
    · simp [List.foldl_cons, partitionStep, hp, List.filter_cons,
        partition_foldl_snd pairs (addToGroup gs p.uploadIndex p) si]
    · simp only [List.foldl_cons, partitionStep, hp, Bool.false_eq_true,
        if_false, List.filter_cons, Bool.not_false, if_pos]
      rw [partition_foldl_snd pairs gs (si ++ [p])]
      simp [hp]

theorem groupOf_nil (k : Option Nat) : groupOf [] k = [] := rfl

theorem groupOf_cons_of_eq (k2 : Option Nat) (ps : List PairRecord)
    (gs : List (Option Nat × List PairRecord)) (k : Option Nat) (h : k2 = k) :
    groupOf ((k2, ps) :: gs) k = ps := by
  unfold groupOf
  rw [List.find?_cons_of_pos _ (by simp [h])]

theorem groupOf_cons_of_ne (k2 : Option Nat) (ps : List PairRecord)
    (gs : List (Option Nat × List PairRecord)) (k : Option Nat) (h : k2 ≠ k) :
    groupOf ((k2, ps) :: gs) k = groupOf gs k := by
  unfold groupOf
  rw [List.find?_cons_of_neg _ (by simp [h])]

theorem groupOf_addToGroup_same :
    ∀ (gs : List (Option Nat × List PairRecord)) (k : Option Nat)
      (p : PairRecord),
      groupOf (addToGroup gs k p) k = groupOf gs k ++ [p]
  | [], k, p => by
    simp only [addToGroup, groupOf_cons_of_eq k [p] [] k rfl, groupOf_nil,
      List.nil_append]
  | (k2, ps) :: gs, k, p => by
    by_cases hk : k2 = k
    · rw [addToGroup, if_pos hk, groupOf_cons_of_eq k2 (ps ++ [p]) gs k hk,
        groupOf_cons_of_eq k2 ps gs k hk]
    · rw [addToGroup, if_neg hk, groupOf_cons_of_ne k2 ps _ k hk,
        groupOf_cons_of_ne k2 ps gs k hk]
      exact groupOf_addToGroup_same gs k p

theorem groupOf_addToGroup_other :
    ∀ (gs : List (Option Nat × List PairRecord)) (k : Option Nat)
      (p : PairRecord) (k2 : Option Nat), k2 ≠ k →
      groupOf (addToGroup gs k p) k2 = groupOf gs k2
  | [], k, p, k2, h => by
    rw [addToGroup, groupOf_cons_of_ne k [p] [] k2 (Ne.symm h), groupOf_nil]
  | (k3, ps) :: gs, k, p, k2, h => by
    by_cases hk : k3 = k
    · by_cases hq : k3 = k2
      · exact absurd (hq.symm.trans hk) h
      · rw [addToGroup, if_pos hk, groupOf_cons_of_ne k3 (ps ++ [p]) gs k2 hq,
          groupOf_cons_of_ne k3 ps gs k2 hq]
    · by_cases hq : k3 = k2
      · rw [addToGroup, if_neg hk, groupOf_cons_of_eq k3 ps _ k2 hq,
          groupOf_cons_of_eq k3 ps gs k2 hq]
      · rw [addToGroup, if_neg hk, groupOf_cons_of_ne k3 ps _ k2 hq,
          groupOf_cons_of_ne k3 ps gs k2 hq]
        exact groupOf_addToGroup_other gs k p k2 h

theorem partition_foldl_groupOf :
    ∀ (pairs : List PairRecord) (gs : List (Option Nat × List PairRecord))
      (si : List PairRecord) (k : Option Nat),
      groupOf (pairs.foldl partitionStep (gs, si)).1 k =
        groupOf gs k ++
          pairs.filter (fun p => isFrameRecord p && decide (p.uploadIndex = k))
  | [], gs, si, k => by simp
  | p :: pairs, gs, si, k => by
    by_cases hp : isFrameRecord p
    · have hstep : partitionStep (gs, si) p = (addToGroup gs p.uploadIndex p, si) := by
        simp [partitionStep, hp]
      rw [List.foldl_cons, hstep,
        partition_foldl_groupOf pairs (addToGroup gs p.uploadIndex p) si k]
      by_cases hk : p.uploadIndex = k
      · subst hk
        rw [groupOf_addToGroup_same gs p.uploadIndex p]
        simp [List.filter_cons, hp, List.append_assoc]
      · rw [groupOf_addToGroup_other gs p.uploadIndex p k (Ne.symm hk)]
        simp [List.filter_cons, hp, hk]
    · have hstep : partitionStep (gs, si) p = (gs, si ++ [p]) := by
        simp [partitionStep, hp]
      rw [List.foldl_cons, hstep, partition_foldl_groupOf pairs gs (si ++ [p]) k]
      simp [List.filter_cons, hp]

/-- The group contents of the partition of lines 179 to 193: the group of
key k collects, in submission order, exactly the frame records whose
uploadIndex is k. -/
theorem partitionPairs_groupOf (pairs : List PairRecord) (k : Option Nat) :
    groupOf (partitionPairs pairs).1 k =
      pairs.filter (fun p => isFrameRecord p && decide (p.uploadIndex = k)) := by
  have h := partition_foldl_groupOf pairs [] [] k
  simpa [partitionPairs, groupOf] using h

/-- The single-image list of the partition: exactly the records without a
frame index, in submission order. -/
theorem partitionPairs_snd (pairs : List PairRecord) :
    (partitionPairs pairs).2 = pairs.filter (fun p => !(isFrameRecord p)) := by
  have h := partition_foldl_snd pairs [] []
  simpa [partitionPairs] using h

theorem addToGroup_keys :
    ∀ (gs : List (Option Nat × List PairRecord)) (k : Option Nat)
      (p : PairRecord),
      (addToGroup gs k p).map Prod.fst =
        if k ∈ gs.map Prod.fst then gs.map Prod.fst
        else gs.map Prod.fst ++ [k]
  | [], k, p => by simp [addToGroup]
  | (k2, ps) :: gs, k, p => by
    by_cases hk : k2 = k
    · simp [addToGroup, hk]
    · have h2 : ¬(k = k2) := fun hh => hk hh.symm
      by_cases hm : k ∈ gs.map Prod.fst
      · simp [addToGroup, hk, addToGroup_keys gs k p, hm, h2]
      · simp [addToGroup, hk, addToGroup_keys gs k p, hm, h2]

theorem partition_keys_nodup_aux :
    ∀ (pairs : List PairRecord) (gs : List (Option Nat × List PairRecord))
      (si : List PairRecord),
      (gs.map Prod.fst).Nodup →
      (((pairs.foldl partitionStep (gs, si)).1).map Prod.fst).Nodup
  | [], gs, si, h => h
  | p :: pairs, gs, si, h => by
    by_cases hp : isFrameRecord p
    · have hstep : partitionStep (gs, si) p = (addToGroup gs p.uploadIndex p, si) := by
        simp [partitionStep, hp]
      rw [List.foldl_cons, hstep]
      apply partition_keys_nodup_aux pairs _ si
      rw [addToGroup_keys]
      by_cases hm : p.uploadIndex ∈ gs.map Prod.fst
      · rw [if_pos hm]; exact h
      · rw [if_neg hm]
        simp [List.nodup_append, h, hm]
    · have hstep : partitionStep (gs, si) p = (gs, si ++ [p]) := by
        simp [partitionStep, hp]
      rw [List.foldl_cons, hstep]
      exact partition_keys_nodup_aux pairs gs (si ++ [p]) h

/-- The partition's group keys are pairwise distinct. -/
theorem partitionPairs_keys_nodup (pairs : List PairRecord) :
    (((partitionPairs pairs).1).map Prod.fst).Nodup :=
  partition_keys_nodup_aux pairs [] [] List.nodup_nil

theorem partition_keys_toFinset :
    ∀ (pairs : List PairRecord) (gs : List (Option Nat × List PairRecord))
      (si : List PairRecord),
      (((pairs.foldl partitionStep (gs, si)).1).map Prod.fst).toFinset =
        (gs.map Prod.fst).toFinset ∪
          ((pairs.filter (fun p => isFrameRecord p)).map
            (fun p => p.uploadIndex)).toFinset
  | [], gs, si => by simp
  | p :: pairs, gs, si => by
    by_cases hp : isFrameRecord p
    · have hstep : partitionStep (gs, si) p = (addToGroup gs p.uploadIndex p, si) := by
        simp [partitionStep, hp]
      rw [List.foldl_cons, hstep, partition_keys_toFinset pairs _ si,
        addToGroup_keys]
      by_cases hm : p.uploadIndex ∈ gs.map Prod.fst
      · rw [if_pos hm]
        have hmem : p.uploadIndex ∈ (gs.map Prod.fst).toFinset ∪
            ((pairs.filter (fun q => isFrameRecord q)).map
              (fun q => q.uploadIndex)).toFinset :=
          Finset.mem_union_left _ (List.mem_toFinset.mpr hm)
        rw [List.filter_cons, if_pos (by simpa using hp), List.map_cons,
          List.toFinset_cons, Finset.union_insert,
          Finset.insert_eq_self.mpr hmem]
      · rw [if_neg hm]
        rw [List.filter_cons, if_pos (by simpa using hp), List.map_cons]
        ext a
        simp
        tauto
    · have hstep : partitionStep (gs, si) p = (gs, si ++ [p]) := by
        simp [partitionStep, hp]
      rw [List.foldl_cons, hstep, partition_keys_toFinset pairs gs (si ++ [p])]
      simp [List.filter_cons, hp]

/-- The number of video groups is the number of distinct uploadIndex
values among the frame records. -/
theorem partitionPairs_length_distinct (pairs : List PairRecord) :
    (partitionPairs pairs).1.length =
      ((pairs.filter (fun p => isFrameRecord p)).map
        (fun p => p.uploadIndex)).toFinset.card := by
  have hlen : (partitionPairs pairs).1.length =
      (((partitionPairs pairs).1).map Prod.fst).length := by
    simp
  rw [hlen, ← List.toFinset_card_of_nodup (partitionPairs_keys_nodup pairs)]
  congr 1
  have h := partition_keys_toFinset pairs [] []
  simpa [partitionPairs] using h

theorem groupOf_of_mem :
    ∀ (gs : List (Option Nat × List PairRecord)) (k : Option Nat)
      (ps : List PairRecord),
      (gs.map Prod.fst).Nodup → (k, ps) ∈ gs → groupOf gs k = ps
  | [], k, ps, _, hm => absurd hm (List.not_mem_nil (k, ps))
  | (k2, qs) :: gs, k, ps, hnd, hm => by
    rw [List.map_cons] at hnd
    have hnd2 := List.nodup_cons.mp hnd
    rcases List.mem_cons.mp hm with hm | hm
    · injection hm with hk hq
      rw [groupOf_cons_of_eq k2 qs gs k hk.symm, hq]
    · by_cases hk : k2 = k
      · exfalso
        have hkm : k ∈ gs.map Prod.fst :=
          List.mem_map.mpr ⟨(k, ps), hm, rfl⟩
        exact hnd2.1 (hk ▸ hkm)
      · rw [groupOf_cons_of_ne k2 qs gs k hk]
        exact groupOf_of_mem gs k ps hnd2.2 hm

/-! ### Orchestrator counting lemmas -/

theorem processSingles_length (env : String → Option Raster) (d : String)
    (u : Nat → String) (uid : String) :
    ∀ (l : List PairRecord) (ctr : Nat),
      (processSingles env d u uid ctr l).2.length +
        (l.filter (fun p => !(itemOk env d p))).length = l.length
  | [], _ => rfl
  | p :: l, ctr => by
    cases hp : process_image_pair env d p.imagePath p.maskPath with
    | error e =>
      have hi : itemOk env d p = false := by
        simp [itemOk, hp, Except.isOk, Except.toBool]
      have ih := processSingles_length env d u uid l ctr
      simp only [processSingles, hp, List.filter_cons, hi, Bool.not_false,
        if_pos, List.length_cons]
      omega
    | ok img =>
      have hi : itemOk env d p = true := by
        simp [itemOk, hp, Except.isOk, Except.toBool]
      have ih := processSingles_length env d u uid l (ctr + 1)
      simp only [processSingles, hp, List.filter_cons, hi, Bool.not_true,
        Bool.false_eq_true, if_false, List.length_cons]
      omega

theorem processVideos_length (env : String → Option Raster) (d : String)
    (u : Nat → String) (uid : String) :
    ∀ (gs : List (Option Nat × List PairRecord)) (ctr : Nat),
      (processVideos env d u uid ctr gs).2.length +
        (gs.filter (fun g => !(groupOk env d g.2))).length = gs.length
  | [], _ => rfl
  | (k, ps) :: gs, ctr => by
    have hok := process_video_frames_isOk env d u ctr ps uid (showKey k)
    cases hv : process_video_frames env d u ctr ps uid (showKey k) with
    | error e =>
      rw [hv] at hok
      have hg : groupOk env d ps = false := by
        rw [← hok]
        rfl
      have ih := processVideos_length env d u uid gs ctr
      simp only [processVideos, hv, List.filter_cons, hg, Bool.not_false,
        if_pos, List.length_cons]
      omega
    | ok pr =>
      obtain ⟨art, ctr2⟩ := pr
      rw [hv] at hok
      have hg : groupOk env d ps = true := by
        rw [← hok]
        rfl
      have ih := processVideos_length env d u uid gs ctr2
      simp only [processVideos, hv, List.filter_cons, hg, Bool.not_true,
        Bool.false_eq_true, if_false, List.length_cons]
      omega

/-- The videos list corresponds one to one, in order, to the groups every
member of which blends: no partially decodable group contributes. -/
theorem processVideos_forall2 (env : String → Option Raster) (d : String)
    (u : Nat → String) (uid : String) :
    ∀ (gs : List (Option Nat × List PairRecord)) (ctr : Nat),
      List.Forall₂ (fun g e => VidResult.originalVideoId e = showKey g.1)
        (gs.filter (fun g => groupOk env d g.2))
        (processVideos env d u uid ctr gs).2
  | [], _ => List.Forall₂.nil
  | (k, ps) :: gs, ctr => by
    have hok := process_video_frames_isOk env d u ctr ps uid (showKey k)
    cases hv : process_video_frames env d u ctr ps uid (showKey k) with
    | error e =>
      rw [hv] at hok
      have hg : groupOk env d ps = false := by
        rw [← hok]
        rfl
      simp only [processVideos, hv, List.filter_cons, hg, Bool.false_eq_true,
        if_false]
      exact processVideos_forall2 env d u uid gs ctr
    | ok pr =>
      obtain ⟨art, ctr2⟩ := pr
      rw [hv] at hok
      have hg : groupOk env d ps = true := by
        rw [← hok]
        rfl
      simp only [processVideos, hv, List.filter_cons, hg, if_pos]
      exact List.Forall₂.cons rfl (processVideos_forall2 env d u uid gs ctr2)

/-! ### Path lemmas -/

theorem splitChunks_ne_nil : ∀ cs : List Char, splitChunks cs ≠ []
  | [] => by simp [splitChunks]
  | c :: cs => by
    have h := splitChunks_ne_nil cs
    by_cases hc : c = sepChar
    · simp [splitChunks, hc]
    · simp only [splitChunks, hc, if_false]
      cases hr : splitChunks cs with
      | nil => simp
      | cons a t => simp

theorem splitChunks_cons_sep (cs : List Char) :
    splitChunks (sepChar :: cs) = [] :: splitChunks cs := by
  simp [splitChunks]

theorem splitChunks_cons_ne (c : Char) (cs : List Char) (h : c ≠ sepChar) :
    splitChunks (c :: cs) =
      match splitChunks cs with
      | [] => [[c]]
      | h2 :: t => (c :: h2) :: t := by
  simp [splitChunks, h]

theorem splitChunks_append_sep :
    ∀ xs ys : List Char,
      splitChunks (xs ++ sepChar :: ys) = splitChunks xs ++ splitChunks ys
  | [], ys => by
    rw [List.nil_append, splitChunks_cons_sep]
    rfl
  | c :: xs, ys => by
    by_cases hc : c = sepChar
    · subst hc
      rw [List.cons_append, splitChunks_cons_sep, splitChunks_cons_sep,
        splitChunks_append_sep xs ys, List.cons_append]
    · rw [List.cons_append, splitChunks_cons_ne c _ hc, splitChunks_cons_ne c xs hc,
        splitChunks_append_sep xs ys]
      cases hx : splitChunks xs with
      | nil => exact absurd hx (splitChunks_ne_nil xs)
      | cons a t => simp

theorem splitChunks_no_sep :
    ∀ cs : List Char, sepChar ∉ cs → splitChunks cs = [cs]
  | [], _ => rfl
  | c :: cs, h => by
    have hc : c ≠ sepChar := fun hh => h (hh ▸ List.mem_cons_self c cs)
    rw [splitChunks_cons_ne c cs hc,
      splitChunks_no_sep cs (fun hh => h (List.mem_cons_of_mem c hh))]

theorem pathComponents_mk_append_sep (xs ys : List Char) :
    pathComponents (String.mk (xs ++ sepChar :: ys)) =
      pathComponents (String.mk xs) ++ pathComponents (String.mk ys) := by
  show ((splitChunks (xs ++ sepChar :: ys)).filter _).map _ = _
  rw [splitChunks_append_sep, List.filter_append, List.map_append]
  rfl

theorem pathComponents_single (s : String) (h : sepChar ∉ s.data)
    (hne : s ≠ "") (hdot : s ≠ ".") : pathComponents s = [s] := by
  show ((splitChunks s.data).filter _).map _ = _
  rw [splitChunks_no_sep s.data h]
  have h1 : s.data ≠ [] := fun hh => hne (String.ext hh)
  have h2 : s.data ≠ [dotChar] := fun hh => hdot (String.ext hh)
  simp [h1, h2]

theorem pathComponents_empty : pathComponents (String.mk []) = [] := by decide

theorem osPathJoin_data_ne_nil (a b : String) (hb : b.data ≠ []) :
    (osPathJoin a b).data ≠ [] := by
  unfold osPathJoin
  by_cases h1 : b.data.head? = some sepChar
  · rw [if_pos h1]; exact hb
  · rw [if_neg h1]
    by_cases h2 : a.data = []
    · rw [if_pos h2]; exact hb
    · rw [if_neg h2]
      by_cases h3 : a.data.getLast? = some sepChar
      · rw [if_pos h3]
        show a.data ++ b.data ≠ []
        simp [h2]
      · rw [if_neg h3]
        show a.data ++ sepChar :: b.data ≠ []
        simp

theorem pathComponents_osPathJoin (a b : String) (ha : a.data ≠ [])
    (hb : b.data.head? ≠ some sepChar) :
    pathComponents (osPathJoin a b) = pathComponents a ++ pathComponents b := by
  unfold osPathJoin
  rw [if_neg hb, if_neg ha]
  by_cases hl : a.data.getLast? = some sepChar
  · rw [if_pos hl]
    obtain ⟨init, hinit⟩ := List.getLast?_eq_some_iff.mp hl
    rw [hinit, List.append_assoc, List.singleton_append,
      pathComponents_mk_append_sep init b.data,
      show a = String.mk (init ++ sepChar :: []) from String.ext hinit,
      pathComponents_mk_append_sep init [], pathComponents_empty,
      List.append_nil]
  · rw [if_neg hl]
    exact pathComponents_mk_append_sep a.data b.data

theorem commonLen_append_self :
    ∀ (xs ys : List String), commonLen (xs ++ ys) xs = xs.length
  | [], ys => by cases ys <;> rfl
  | x :: xs, ys => by
    simp [commonLen, commonLen_append_self xs ys]

theorem osPathRelpath_of_append (path start : String) (rest : List String)
    (h : normComps (pathComponents path) =
      normComps (pathComponents start) ++ rest)
    (hrest : rest ≠ []) :
    osPathRelpath path start = joinComps rest := by
  simp only [osPathRelpath]
  rw [h, commonLen_append_self, List.drop_left, Nat.sub_self,
    List.replicate_zero, List.nil_append, if_neg hrest]

theorem data_append (a b : String) : (a ++ b).data = a.data ++ b.data := rfl

theorem head?_ne_sep_of_not_mem (s : String) (h : sepChar ∉ s.data) :
    s.data.head? ≠ some sepChar :=
  fun hh => h (List.mem_of_mem_head? (Option.mem_def.mpr hh))

theorem sep_not_mem_append (x y : String) (hx : sepChar ∉ x.data)
    (hy : sepChar ∉ y.data) : sepChar ∉ (x ++ y).data := by
  rw [data_append]
  intro hm
  rcases List.mem_append.mp hm with hm | hm
  · exact hx hm
  · exact hy hm

theorem ne_of_mem_data (s t : String) (c : Char) (hc : c ∈ s.data)
    (ht : c ∉ t.data) : s ≠ t := by
  intro hh
  rw [hh] at hc
  exact ht hc

theorem normComps_append_no_dotdot :
    ∀ (ys : List String) (acc : List String), (".." : String) ∉ ys →
      ys.foldl (fun a c => if c = ".." then a.dropLast else a ++ [c]) acc =
        acc ++ ys
  | [], acc, _ => by simp
  | c :: ys, acc, h => by
    have hc : c ≠ ".." := fun hh => h (hh ▸ List.mem_cons_self c ys)
    rw [List.foldl_cons, if_neg hc,
      normComps_append_no_dotdot ys (acc ++ [c])
        (fun hh => h (List.mem_cons_of_mem c hh)),
      List.append_assoc, List.singleton_append]

theorem normComps_append (xs ys : List String) (h : (".." : String) ∉ ys) :
    normComps (xs ++ ys) = normComps xs ++ ys := by
  unfold normComps
  rw [List.foldl_append]
  exact normComps_append_no_dotdot ys _ h

/-- The shape of every artifact path handed back by the service: joining
the upload root with inferences, the user directory and a filename none
of which is a dot-dot entry, then taking the path relative to the root,
leaves exactly the three trailing components. -/
theorem output_path_shape (d uid fname : String)
    (hd : d.data ≠ [])
    (huid : sepChar ∉ uid.data) (huidne : uid ≠ "") (huiddot : uid ≠ ".")
    (huidp : uid ≠ "..")
    (hfn : sepChar ∉ fname.data) (hfnne : fname ≠ "") (hfndot : fname ≠ ".")
    (hfnp : fname ≠ "..") :
    osPathRelpath (osPathJoin (osPathJoin (osPathJoin d ("inferences")) uid) fname) d =
      "inferences" ++ sepStr ++ uid ++ sepStr ++ fname := by
  have hb1 : ("inferences" : String).data.head? ≠ some sepChar := by decide
  have hcI : pathComponents ("inferences") = ["inferences"] := by decide
  have h1 : pathComponents (osPathJoin d ("inferences")) =
      pathComponents d ++ ["inferences"] := by
    rw [pathComponents_osPathJoin d _ hd hb1, hcI]
  have hj1ne : (osPathJoin d ("inferences")).data ≠ [] :=
    osPathJoin_data_ne_nil d _ (by decide)
  have huidd : uid.data ≠ [] := fun hh => huidne (String.ext hh)
  have h2 : pathComponents (osPathJoin (osPathJoin d ("inferences")) uid) =
      pathComponents d ++ ["inferences", uid] := by
    rw [pathComponents_osPathJoin _ uid hj1ne (head?_ne_sep_of_not_mem uid huid),
      h1, pathComponents_single uid huid huidne huiddot, List.append_assoc]
    rfl
  have hj2ne : (osPathJoin (osPathJoin d ("inferences")) uid).data ≠ [] :=
    osPathJoin_data_ne_nil _ uid huidd
  have h3 : pathComponents
      (osPathJoin (osPathJoin (osPathJoin d ("inferences")) uid) fname) =
      pathComponents d ++ ["inferences", uid, fname] := by
    rw [pathComponents_osPathJoin _ fname hj2ne (head?_ne_sep_of_not_mem fname hfn),
      h2, pathComponents_single fname hfn hfnne hfndot, List.append_assoc]
    rfl
  have hdd : (".." : String) ∉ (["inferences", uid, fname] : List String) := by
    intro hm
    simp only [List.mem_cons, List.not_mem_nil, or_false] at hm
    rcases hm with hm | hm | hm
    · exact absurd hm (by decide)
    · exact huidp hm.symm
    · exact hfnp hm.symm
  have h4 : normComps (pathComponents
      (osPathJoin (osPathJoin (osPathJoin d ("inferences")) uid) fname)) =
      normComps (pathComponents d) ++ ["inferences", uid, fname] := by
    rw [h3, normComps_append _ _ hdd]
  rw [osPathRelpath_of_append _ d (["inferences", uid, fname]) h4 (by simp)]
  apply String.ext
  simp [joinComps, data_append, List.append_assoc]

theorem makedirs_idem (dd : String) (dirs : List String) :
    makedirs dd (makedirs dd dirs) = makedirs dd dirs := by
  by_cases h : dd ∈ dirs
  · simp [makedirs, h]
  · simp [makedirs, h]

theorem process_dataset_success_elim (env : String → Option Raster)
    (d : String) (u : Nat → String) (uid : String) (pairs : List PairRecord)
    (imgs : List ImgResult) (vids : List VidResult)
    (h : process_dataset env d u uid pairs = BatchReport.success imgs vids) :
    imgs = (processSingles env d u uid 0 (partitionPairs pairs).2).2 ∧
    vids = (processVideos env d u uid
      (processSingles env d u uid 0 (partitionPairs pairs).2).1
      (partitionPairs pairs).1).2 := by
  unfold process_dataset at h
  by_cases hp : pairs = []
  · rw [if_pos hp] at h
    cases h
  · rw [if_neg hp] at h
    simp only [BatchReport.success.injEq] at h
    exact ⟨h.1.symm, h.2.symm⟩

/-! ### Blend formula lemmas -/

theorem blendChan_eq_spec (ic mc g : Nat) :
    blendChan ic mc g = specBlendChan ic mc g := by
  simp only [blendChan, specBlendChan]
  have hv : (ic : ℚ) * (1 - (g : ℚ) / 255 * (1 / 2)) +
      (mc : ℚ) * ((g : ℚ) / 255 * (1 / 2)) =
      (((ic : Int) * (510 - (g : Int)) + (mc : Int) * (g : Int) : Int) : ℚ) / 510 := by
    push_cast
    field_simp
    ring
  rw [hv]
  set n : Int := (ic : Int) * (510 - (g : Int)) + (mc : Int) * (g : Int) with hn
  by_cases h1 : n < 0
  · rw [if_pos h1]
    have hv0 : (n : ℚ) / 510 < 0 := by
      apply div_neg_of_neg_of_pos
      · exact_mod_cast h1
      · norm_num
    rw [min_eq_right (le_of_lt (lt_of_lt_of_le hv0 (by norm_num))),
      max_eq_left (le_of_lt hv0)]
    simp
  · rw [if_neg h1]
    push_neg at h1
    by_cases h2 : 255 * 510 < n
    · rw [if_pos h2]
      have hv2 : (255 : ℚ) ≤ (n : ℚ) / 510 := by
        rw [le_div_iff₀ (by norm_num : (0 : ℚ) < 510)]
        exact_mod_cast le_of_lt h2
      rw [min_eq_left hv2, max_eq_right (by norm_num : (0 : ℚ) ≤ 255)]
      norm_num
      decide
    · rw [if_neg h2]
      push_neg at h2
      have hv2 : (n : ℚ) / 510 ≤ 255 := by
        rw [div_le_iff₀ (by norm_num : (0 : ℚ) < 510)]
        exact_mod_cast h2
      have hv0 : (0 : ℚ) ≤ (n : ℚ) / 510 := by
        apply div_nonneg
        · exact_mod_cast h1
        · norm_num
      rw [min_eq_right hv2, max_eq_right hv0]
      obtain ⟨m, hm⟩ : ∃ m : Nat, n = (m : Int) :=
        ⟨n.toNat, (Int.toNat_of_nonneg h1).symm⟩
      rw [hm]
      have hc : (((m : Int) : ℚ)) = ((m : ℚ)) := by push_cast; ring
      rw [hc, Int.floor_toNat,
        show ((510 : ℚ)) = (((510 : Nat) : ℚ)) from by norm_num,
        Nat.floor_div_eq_div]
      simp

theorem blendPixel_eq_spec (ip mp : Pix) :
    blendPixel ip mp =
      ⟨specBlendChan ip.b mp.b (bgr2grayPixel mp),
       specBlendChan ip.g mp.g (bgr2grayPixel mp),
       specBlendChan ip.r mp.r (bgr2grayPixel mp)⟩ := by
  simp only [blendPixel, blendChan_eq_spec]

theorem blendRasters_pixel (image mask : Raster) (i j : Nat)
    (hieq : image.rows.length = mask.rows.length)
    (hil : i < image.rows.length)
    (hjl : j < (image.rows.getD i []).length)
    (hjeq : (image.rows.getD i []).length = (mask.rows.getD i []).length) :
    ((blendRasters image mask).rows.getD i []).getD j ⟨0, 0, 0⟩ =
      blendPixel ((image.rows.getD i []).getD j ⟨0, 0, 0⟩)
        ((mask.rows.getD i []).getD j ⟨0, 0, 0⟩) := by
  have hil2 : i < mask.rows.length := hieq ▸ hil
  have hlz : i < (image.rows.zip mask.rows).length := by
    rw [List.length_zip, hieq, min_self]
    exact hil2
  have hlm : i < ((image.rows.zip mask.rows).map (fun rw =>
      (rw.1.zip rw.2).map fun pq => blendPixel pq.1 pq.2)).length := by
    rw [List.length_map]
    exact hlz
  rw [List.getD_eq_getElem image.rows [] hil] at hjl hjeq
  rw [List.getD_eq_getElem mask.rows [] hil2] at hjeq
  have hjl2 : j < (mask.rows[i]).length := hjeq ▸ hjl
  have hjz : j < ((image.rows[i]).zip (mask.rows[i])).length := by
    rw [List.length_zip, hjeq, min_self]
    exact hjl2
  have hjm : j < (((image.rows[i]).zip (mask.rows[i])).map
      (fun pq => blendPixel pq.1 pq.2)).length := by
    rw [List.length_map]
    exact hjz
  rw [show (blendRasters image mask).rows = (image.rows.zip mask.rows).map
      (fun rw => (rw.1.zip rw.2).map fun pq => blendPixel pq.1 pq.2) from rfl,
    List.getD_eq_getElem _ _ hlm, List.getElem_map, List.getElem_zip,
    List.getD_eq_getElem image.rows [] hil,
    List.getD_eq_getElem mask.rows [] hil2]
  dsimp only
  rw [List.getD_eq_getElem _ _ hjm, List.getElem_map, List.getElem_zip,
    List.getD_eq_getElem _ _ hjl, List.getD_eq_getElem _ _ hjl2]

/-! ### The claims -/

/-- C1: for every non-empty batch, process_dataset returns a success
report even when some or all individual items fail; per-item errors are
caught and never surface as a batch-level failure, which is reserved for
the empty batch. -/
theorem c1_nonempty_batch_always_success (env : String → Option Raster)
    (d : String) (u : Nat → String) (uid : String) (pairs : List PairRecord)
    (h : pairs ≠ []) :
    ∃ imgs vids,
      process_dataset env d u uid pairs = BatchReport.success imgs vids := by
  unfold process_dataset
  rw [if_neg h]
  exact ⟨_, _, rfl⟩

/-- C1 witness: a batch whose only item fails to decode still yields a
success report. -/
theorem c1_witness :
    ∃ imgs vids,
      process_dataset sampleEnv ("/up") sampleUuids ("u1") [sampleBad] =
        BatchReport.success imgs vids :=
  c1_nonempty_batch_always_success sampleEnv ("/up") sampleUuids ("u1")
    [sampleBad] (by decide)

/-- C2: a batch with an empty pairs sequence returns immediately the
failure report with error string No data pairs found in dataset. -/
theorem c2_empty_batch_failure (env : String → Option Raster) (d : String)
    (u : Nat → String) (uid : String) :
    process_dataset env d u uid [] =
      BatchReport.failure ("No data pairs found in dataset") := rfl

/-- C3: partitioning routes every frame record into the group keyed by
its uploadIndex and every other record into the standalone list; the
report's images count plus the failed standalone count equals the
standalone total, and the videos count plus the failed group count equals
the number of distinct uploadIndex values among frame records. -/
theorem c3_partition_routing_and_counts (env : String → Option Raster)
    (d : String) (u : Nat → String) (uid : String) (pairs : List PairRecord)
    (k : Option Nat) (imgs : List ImgResult) (vids : List VidResult)
    (h : process_dataset env d u uid pairs = BatchReport.success imgs vids) :
    (partitionPairs pairs).2 = pairs.filter (fun p => !(isFrameRecord p)) ∧
    groupOf (partitionPairs pairs).1 k =
      pairs.filter (fun p => isFrameRecord p && decide (p.uploadIndex = k)) ∧
    imgs.length + ((pairs.filter (fun p => !(isFrameRecord p))).filter
      (fun p => !(itemOk env d p))).length =
      (pairs.filter (fun p => !(isFrameRecord p))).length ∧
    vids.length + ((partitionPairs pairs).1.filter
      (fun g => !(groupOk env d g.2))).length =
      ((pairs.filter (fun p => isFrameRecord p)).map
        (fun p => p.uploadIndex)).toFinset.card := by
  obtain ⟨hi, hv⟩ := process_dataset_success_elim env d u uid pairs imgs vids h
  refine ⟨partitionPairs_snd pairs, partitionPairs_groupOf pairs k, ?_, ?_⟩
  · rw [hi, ← partitionPairs_snd pairs]
    exact processSingles_length env d u uid (partitionPairs pairs).2 0
  · rw [hv, ← partitionPairs_length_distinct pairs]
    exact processVideos_length env d u uid (partitionPairs pairs).1 _

/-- C3 witness on the sample batch: one good single, one bad single, one
three-frame group. -/
theorem c3_witness :
    (partitionPairs samplePairs).2 =
      samplePairs.filter (fun p => !(isFrameRecord p)) ∧
    groupOf (partitionPairs samplePairs).1 (some 4) =
      samplePairs.filter
        (fun p => isFrameRecord p && decide (p.uploadIndex = some 4)) ∧
    sampleImgs.length +
      ((samplePairs.filter (fun p => !(isFrameRecord p))).filter
        (fun p => !(itemOk sampleEnv ("/up") p))).length =
      (samplePairs.filter (fun p => !(isFrameRecord p))).length ∧
    sampleVids.length + ((partitionPairs samplePairs).1.filter
      (fun g => !(groupOk sampleEnv ("/up") g.2))).length =
      ((samplePairs.filter (fun p => isFrameRecord p)).map
        (fun p => p.uploadIndex)).toFinset.card :=
  c3_partition_routing_and_counts sampleEnv ("/up") sampleUuids ("u1")
    samplePairs (some 4) sampleImgs sampleVids (by decide)

/-- C4: the frames written into a reconstructed video follow the group's
records sorted by ascending frameIndex under a stable sort: the sorted
sequence is ordered by the key, is a permutation of the arrival sequence,
and preserves the arrival order within every key, whatever order the
records arrived in. -/
theorem c4_frames_sorted_stably (env : String → Option Raster) (d : String)
    (u : Nat → String) (ctr : Nat) (frame_pairs : List PairRecord)
    (uid vid : String) (art : VideoArtifact) (ctr2 : Nat) (k : Int)
    (h : process_video_frames env d u ctr frame_pairs uid vid =
      Except.ok (art, ctr2)) :
    List.Forall₂ (fun p r =>
      process_image_pair env d p.imagePath p.maskPath = Except.ok r)
      (sortFrames frame_pairs) art.frames ∧
    List.Sorted frameLE (sortFrames frame_pairs) ∧
    List.Perm (sortFrames frame_pairs) frame_pairs ∧
    (sortFrames frame_pairs).filter (fun p => decide (frameKey p = k)) =
      frame_pairs.filter (fun p => decide (frameKey p = k)) :=
  ⟨(process_video_frames_ok_elim env d u ctr frame_pairs uid vid art ctr2
      h).2.2.2.1,
   sortFrames_sorted frame_pairs, sortFrames_perm frame_pairs,
   sortFrames_filter_key frame_pairs k⟩

/-- C4 witness: the group arriving with frame indices 3, 1, 2 is written
in playback order 1, 2, 3. -/
theorem c4_witness :
    List.Forall₂ (fun p r =>
      process_image_pair sampleEnv ("/up") p.imagePath p.maskPath =
        Except.ok r)
      (sortFrames sampleGroup312) sampleArt312.frames ∧
    List.Sorted frameLE (sortFrames sampleGroup312) ∧
    List.Perm (sortFrames sampleGroup312) sampleGroup312 ∧
    (sortFrames sampleGroup312).filter (fun p => decide (frameKey p = 2)) =
      sampleGroup312.filter (fun p => decide (frameKey p = 2)) :=
  c4_frames_sorted_stably sampleEnv ("/up") sampleUuids 0 sampleGroup312
    ("u1") ("9") sampleArt312 1 2 (by decide)

/-- C5: for a decodable image and mask of equal spatial dimensions, every
output pixel equals the spec formula image * (1 - w) + mask * w with w
the normalized single-channel mask luminance times one half, clipped to
the 0..255 integer range; on flat gray 128 against flat white 255 every
channel comes out 191, the truncation convention. -/
theorem c5_blend_matches_spec_formula (env : String → Option Raster)
    (d ipath mpath : String) (image mask res : Raster) (i j : Nat)
    (hi : env (osPathJoin d ipath) = some image)
    (hm : env (osPathJoin d mpath) = some mask)
    (hsh : rasterShape image = rasterShape mask)
    (hr : process_image_pair env d ipath mpath = Except.ok res)
    (hil : i < image.rows.length)
    (hjl : j < (image.rows.getD i []).length)
    (hjeq : (image.rows.getD i []).length = (mask.rows.getD i []).length) :
    ((res.rows.getD i []).getD j ⟨0, 0, 0⟩ =
      ⟨specBlendChan ((image.rows.getD i []).getD j ⟨0, 0, 0⟩).b
         ((mask.rows.getD i []).getD j ⟨0, 0, 0⟩).b
         (bgr2grayPixel ((mask.rows.getD i []).getD j ⟨0, 0, 0⟩)),
       specBlendChan ((image.rows.getD i []).getD j ⟨0, 0, 0⟩).g
         ((mask.rows.getD i []).getD j ⟨0, 0, 0⟩).g
         (bgr2grayPixel ((mask.rows.getD i []).getD j ⟨0, 0, 0⟩)),
       specBlendChan ((image.rows.getD i []).getD j ⟨0, 0, 0⟩).r
         ((mask.rows.getD i []).getD j ⟨0, 0, 0⟩).r
         (bgr2grayPixel ((mask.rows.getD i []).getD j ⟨0, 0, 0⟩))⟩) ∧
    blendPixel ⟨128, 128, 128⟩ ⟨255, 255, 255⟩ = ⟨191, 191, 191⟩ := by
  have hreq : res = blendRasters image mask := by
    simp only [process_image_pair, hi, hm] at hr
    rw [if_neg (fun hh => hh hsh)] at hr
    exact ((Except.ok.injEq _ _).mp hr).symm
  constructor
  · rw [hreq,
      blendRasters_pixel image mask i j (congrArg Prod.fst hsh) hil hjl hjeq,
      blendPixel_eq_spec]
  · decide

/-- C5 witness: the sample gray image against the sample white mask at
pixel 0 0 evaluates both sides, output channel 191. -/
theorem c5_witness :
    ((sampleBlended.rows.getD 0 []).getD 0 ⟨0, 0, 0⟩ =
      ⟨specBlendChan ((sampleGray.rows.getD 0 []).getD 0 ⟨0, 0, 0⟩).b
         ((sampleWhite.rows.getD 0 []).getD 0 ⟨0, 0, 0⟩).b
         (bgr2grayPixel ((sampleWhite.rows.getD 0 []).getD 0 ⟨0, 0, 0⟩)),
       specBlendChan ((sampleGray.rows.getD 0 []).getD 0 ⟨0, 0, 0⟩).g
         ((sampleWhite.rows.getD 0 []).getD 0 ⟨0, 0, 0⟩).g
         (bgr2grayPixel ((sampleWhite.rows.getD 0 []).getD 0 ⟨0, 0, 0⟩)),
       specBlendChan ((sampleGray.rows.getD 0 []).getD 0 ⟨0, 0, 0⟩).r
         ((sampleWhite.rows.getD 0 []).getD 0 ⟨0, 0, 0⟩).r
         (bgr2grayPixel ((sampleWhite.rows.getD 0 []).getD 0 ⟨0, 0, 0⟩))⟩) ∧
    blendPixel ⟨128, 128, 128⟩ ⟨255, 255, 255⟩ = ⟨191, 191, 191⟩ :=
  c5_blend_matches_spec_formula sampleEnv ("/up") ("img.png") ("msk.png")
    sampleGray sampleWhite sampleBlended 0 0 (by decide) (by decide)
    (by decide) (by decide) (by decide) (by decide) (by decide)

/-- C6 counterexample: resolution is a plain join with no validation; the
relative path dot-dot dot-dot etc passwd resolved against the root
/uploads yields a path whose normalization does not stay under the root,
so dot-dot traversal is neither rejected nor normalized away. -/
theorem c6_counterexample :
    osPathJoin ("/uploads") ("../../etc/passwd") =
      "/uploads/../../etc/passwd" ∧
    (normComps (pathComponents
        (osPathJoin ("/uploads") ("../../etc/passwd")))).take
      (pathComponents ("/uploads")).length ≠ pathComponents ("/uploads") := by
  constructor
  · decide
  · decide

/-- C6 amended: resolution joins the relative path onto the configured
upload root with no traversal validation; a relative path free of dot-dot
components stays under the root, while dot-dot components can escape it. -/
theorem c6_amended_join_without_validation (root rel : String)
    (hroot : root.data ≠ [])
    (hnorm : normComps (pathComponents root) = pathComponents root)
    (habs : rel.data.head? ≠ some sepChar)
    (hdd : (".." : String) ∉ pathComponents rel) :
    (normComps (pathComponents (osPathJoin root rel))).take
      (pathComponents root).length = pathComponents root := by
  rw [pathComponents_osPathJoin root rel hroot habs,
    normComps_append _ _ hdd, hnorm, List.take_left]

/-- C6 amended witness: a benign relative path under the root /uploads
stays under it. -/
theorem c6_amended_witness :
    (normComps (pathComponents
        (osPathJoin ("/uploads") ("images/a.png")))).take
      (pathComponents ("/uploads")).length = pathComponents ("/uploads") :=
  c6_amended_join_without_validation ("/uploads") ("images/a.png")
    (by decide) (by decide) (by decide) (by decide)

/-- C7: output paths are returned relative to the upload root with the
shape inferences slash userId slash uuid underscore name for an image and
inferences slash userId slash uuid underscore video underscore videoId
dot mp4 for a video, and the per-user directory creation is idempotent. -/
theorem c7_output_path_shapes (env : String → Option Raster)
    (d uid fn uu vid : String) (u : Nat → String) (ctr ctr2 : Nat)
    (frame_pairs : List PairRecord) (art : VideoArtifact) (dirs : List String)
    (hd : d.data ≠ [])
    (huid : sepChar ∉ uid.data) (huidne : uid ≠ "") (huiddot : uid ≠ ".")
    (huidp : uid ≠ "..")
    (huu : sepChar ∉ uu.data) (hfn : sepChar ∉ fn.data)
    (huc : sepChar ∉ (u ctr).data) (hvid : sepChar ∉ vid.data)
    (hv : process_video_frames env d u ctr frame_pairs uid vid =
      Except.ok (art, ctr2)) :
    save_processed_image d uid fn uu =
      "inferences" ++ sepStr ++ uid ++ sepStr ++ (uu ++ "_" ++ fn) ∧
    art.path =
      "inferences" ++ sepStr ++ uid ++ sepStr ++
        (u ctr ++ "_video_" ++ vid ++ ".mp4") ∧
    makedirs (osPathJoin (osPathJoin d ("inferences")) uid)
        (makedirs (osPathJoin (osPathJoin d ("inferences")) uid) dirs) =
      makedirs (osPathJoin (osPathJoin d ("inferences")) uid) dirs := by
  refine ⟨?_, ?_, makedirs_idem _ dirs⟩
  · have hg : sepChar ∉ (uu ++ "_" ++ fn).data :=
      sep_not_mem_append _ fn
        (sep_not_mem_append uu ("_") huu (by decide)) hfn
    have hmem : ('_' : Char) ∈ (uu ++ "_" ++ fn).data := by
      rw [data_append]
      exact List.mem_append_left _
        (by rw [data_append]; exact List.mem_append_right _ (by decide))
    have hne : (uu ++ "_" ++ fn) ≠ "" :=
      ne_of_mem_data _ _ '_' hmem (by decide)
    have hdot : (uu ++ "_" ++ fn) ≠ "." :=
      ne_of_mem_data _ _ '_' hmem (by decide)
    have hpar : (uu ++ "_" ++ fn) ≠ ".." :=
      ne_of_mem_data _ _ '_' hmem (by decide)
    exact output_path_shape d uid (uu ++ "_" ++ fn) hd huid huidne huiddot
      huidp hg hne hdot hpar
  · have hpath := (process_video_frames_ok_elim env d u ctr frame_pairs uid
      vid art ctr2 hv).2.2.1
    have hg : sepChar ∉ (u ctr ++ "_video_" ++ vid ++ ".mp4").data :=
      sep_not_mem_append _ _ (sep_not_mem_append _ vid
        (sep_not_mem_append (u ctr) ("_video_") huc (by decide)) hvid)
        (by decide)
    have hmem : ('p' : Char) ∈ (u ctr ++ "_video_" ++ vid ++ ".mp4").data := by
      rw [data_append]
      exact List.mem_append_right _ (by decide)
    have hne2 : (u ctr ++ "_video_" ++ vid ++ ".mp4") ≠ "" :=
      ne_of_mem_data _ _ 'p' hmem (by decide)
    have hdot2 : (u ctr ++ "_video_" ++ vid ++ ".mp4") ≠ "." :=
      ne_of_mem_data _ _ 'p' hmem (by decide)
    have hpar2 : (u ctr ++ "_video_" ++ vid ++ ".mp4") ≠ ".." :=
      ne_of_mem_data _ _ 'p' hmem (by decide)
    rw [hpath]
    exact output_path_shape d uid _ hd huid huidne huiddot huidp hg hne2
      hdot2 hpar2

/-- C7 witness on the sample inputs. -/
theorem c7_witness :
    save_processed_image ("/up") ("u1") ("processed_img.png") ("uuid0") =
      "inferences" ++ sepStr ++ "u1" ++ sepStr ++
        ("uuid0" ++ "_" ++ "processed_img.png") ∧
    sampleArt312.path =
      "inferences" ++ sepStr ++ "u1" ++ sepStr ++
        (sampleUuids 0 ++ "_video_" ++ "9" ++ ".mp4") ∧
    makedirs (osPathJoin (osPathJoin ("/up") ("inferences")) ("u1"))
        (makedirs (osPathJoin (osPathJoin ("/up") ("inferences")) ("u1")) []) =
      makedirs (osPathJoin (osPathJoin ("/up") ("inferences")) ("u1")) [] :=
  c7_output_path_shapes sampleEnv ("/up") ("u1") ("processed_img.png")
    ("uuid0") ("9") sampleUuids 0 1 sampleGroup312 sampleArt312 []
    (by decide) (by decide) (by decide) (by decide) (by decide) (by decide)
    (by decide) (by decide) (by decide) (by decide)

/-- C8: the reconstruction writes every video at exactly 1 frame per
second whatever the inputs are, so n blended frames make an n-second
video; the frame count is the group size. -/
theorem c8_fixed_one_fps (env : String → Option Raster) (d : String)
    (u : Nat → String) (ctr : Nat) (frame_pairs : List PairRecord)
    (uid vid : String) (art : VideoArtifact) (ctr2 : Nat)
    (h : process_video_frames env d u ctr frame_pairs uid vid =
      Except.ok (art, ctr2)) :
    art.fps = 1 ∧ durationSeconds art = (art.frames.length : ℚ) ∧
    art.frames.length = frame_pairs.length := by
  obtain ⟨hfps, _, _, hfa, _⟩ :=
    process_video_frames_ok_elim env d u ctr frame_pairs uid vid art ctr2 h
  refine ⟨hfps, ?_, ?_⟩
  · rw [durationSeconds, hfps, div_one]
  · rw [← hfa.length_eq]
    exact (sortFrames_perm frame_pairs).length_eq

/-- C8 witness: the three-frame sample group yields a 1 fps, three-second
artifact. -/
theorem c8_witness :
    sampleArt312.fps = 1 ∧
    durationSeconds sampleArt312 = (sampleArt312.frames.length : ℚ) ∧
    sampleArt312.frames.length = sampleGroup312.length :=
  c8_fixed_one_fps sampleEnv ("/up") sampleUuids 0 sampleGroup312 ("u1")
    ("9") sampleArt312 1 (by decide)

/-- C9: one undecodable frame makes the whole group's reconstruction
raise; the group is dropped whole from the videos list, which corresponds
one to one to the groups every member of which blends, so no partial
video of the remaining decodable frames is ever emitted. -/
theorem c9_failing_frame_drops_group (env : String → Option Raster)
    (d : String) (u : Nat → String) (uid vid : String)
    (pairs : List PairRecord) (k : Option Nat) (ps : List PairRecord)
    (p : PairRecord) (imgs : List ImgResult) (vids : List VidResult)
    (ctr : Nat)
    (_hmem : (k, ps) ∈ (partitionPairs pairs).1)
    (hp : p ∈ ps) (hfail : itemOk env d p = false)
    (hrep : process_dataset env d u uid pairs = BatchReport.success imgs vids) :
    (∃ msg, process_video_frames env d u ctr ps uid vid = Except.error msg) ∧
    groupOk env d ps = false ∧
    List.Forall₂ (fun g e => VidResult.originalVideoId e = showKey g.1)
      ((partitionPairs pairs).1.filter (fun g => groupOk env d g.2)) vids ∧
    (k, ps) ∉ (partitionPairs pairs).1.filter (fun g => groupOk env d g.2) := by
  have hgOk : groupOk env d ps = false := by
    unfold groupOk
    have hall : ps.all (itemOk env d) = false :=
      List.all_eq_false.mpr ⟨p, hp, by simp [hfail]⟩
    rw [hall, Bool.and_false]
  refine ⟨?_, hgOk, ?_, ?_⟩
  · have hok := process_video_frames_isOk env d u ctr ps uid vid
    rw [hgOk] at hok
    cases hv : process_video_frames env d u ctr ps uid vid with
    | error e => exact ⟨e, rfl⟩
    | ok pr =>
      rw [hv] at hok
      simp [Except.isOk, Except.toBool] at hok
  · obtain ⟨_, hvids⟩ :=
      process_dataset_success_elim env d u uid pairs imgs vids hrep
    rw [hvids]
    exact processVideos_forall2 env d u uid (partitionPairs pairs).1 _
  · intro hin
    have hc := (List.mem_filter.mp hin).2
    rw [hgOk] at hc
    simp at hc

/-- C9 witness: the two-group sample batch where group 7 holds an
undecodable frame; group 7 raises and only group 4 reaches the report. -/
theorem c9_witness :
    (∃ msg, process_video_frames sampleEnv ("/up") sampleUuids 5
      [sampleBadFrame] ("u1") ("7") = Except.error msg) ∧
    groupOk sampleEnv ("/up") [sampleBadFrame] = false ∧
    List.Forall₂ (fun g e => VidResult.originalVideoId e = showKey g.1)
      ((partitionPairs samplePairs9).1.filter
        (fun g => groupOk sampleEnv ("/up") g.2)) sampleVids9 ∧
    (some 7, [sampleBadFrame]) ∉ (partitionPairs samplePairs9).1.filter
      (fun g => groupOk sampleEnv ("/up") g.2) :=
  c9_failing_frame_drops_group sampleEnv ("/up") sampleUuids ("u1") ("7")
    samplePairs9 (some 7) [sampleBadFrame] sampleBadFrame [] sampleVids9 5
    (by decide) (by decide) (by decide) (by decide)

/-- C10: a record whose frameIndex is 0 is classified as a video frame of
its uploadIndex group and never as a standalone image: the partition
tests presence of the frame index, not its truthiness. -/
theorem c10_frame_index_zero_is_video (pairs : List PairRecord)
    (p : PairRecord) (hmem : p ∈ pairs) (h0 : p.frameIndex = some 0) :
    p ∉ (partitionPairs pairs).2 ∧
    p ∈ groupOf (partitionPairs pairs).1 p.uploadIndex := by
  have hframe : isFrameRecord p = true := by simp [isFrameRecord, h0]
  constructor
  · rw [partitionPairs_snd]
    intro hin
    have hc := (List.mem_filter.mp hin).2
    rw [hframe] at hc
    simp at hc
  · rw [partitionPairs_groupOf]
    exact List.mem_filter.mpr ⟨hmem, by simp [hframe]⟩

/-- C10 witness: the frame with index 0 of the sample batch lands in
group 4, not among the standalone images. -/
theorem c10_witness :
    sampleF0 ∉ (partitionPairs samplePairs).2 ∧
    sampleF0 ∈ groupOf (partitionPairs samplePairs).1 sampleF0.uploadIndex :=
  c10_frame_index_zero_is_video samplePairs sampleF0 (by decide) (by decide)

end BlackBox
